import Mathlib

/-!
Verification development for the scaffolding core of the `jcvi` finishing
pipeline (`assembly/finish.py`) and the BLAST wrapper (`apps/command.py`).

The Python code is shallowly embedded: contig identifiers are `String`s,
orientation codes are pairs of strands, the multigraph edges of one connected
component are a list of `LinkEdge`s, and the dictionary-based bookkeeping of
`scaffold` is modelled with lists and lookup functions.  Functions that live
in modules outside the inspected sources (`jcvi.algorithms.matrix`,
`jcvi.assembly.base`) are modelled from the specification and carry a doc
comment saying so.
-/

/-- One strand symbol of an orientation code: the characters `+` and `-` of the
Python strings `"++"`, `"+-"`, `"-+"`, `"--"`. -/
inductive Strand where
  | plus : Strand
  | minus : Strand
deriving DecidableEq, Repr

/-- A two-character orientation code, e.g. `"+-"` is `(Strand.plus, Strand.minus)`. -/
abbrev OriCode := Strand × Strand

/-- One link-evidence edge of the multigraph: two contig identifiers, an
orientation code and a (clamped) gap-distance estimate, as stored by
`g.add_edge(c.aseqid, c.bseqid, orientation=..., distance=...)`. -/
structure LinkEdge where
  a : String
  b : String
  ori : OriCode
  distance : Int
deriving DecidableEq, Repr

/-- Code-point comparison of characters, mirroring Python string comparison. -/
def lexLe : List Char → List Char → Bool
  | [], _ => true
  | _ :: _, [] => false
  | x :: xs, y :: ys => if x = y then lexLe xs ys else decide (x < y)

/-- Lexicographic (code-point) order on strings, as used by Python `sorted`. -/
def strLe (a b : String) : Prop := lexLe a.data b.data = true

instance : DecidableRel strLe := fun _ _ => instDecidableEqBool _ _

theorem lexLe_trans : ∀ xs ys zs : List Char,
    lexLe xs ys = true → lexLe ys zs = true → lexLe xs zs = true
  | [], _, _, _, _ => rfl
  | _ :: _, [], _, h1, _ => by simp [lexLe] at h1
  | _ :: _, _ :: _, [], _, h2 => by simp [lexLe] at h2
  | x :: xs, y :: ys, z :: zs, h1, h2 => by
    simp only [lexLe] at h1 h2 ⊢
    by_cases hxy : x = y <;> by_cases hyz : y = z
    · rw [if_pos (hxy.trans hyz)]
      rw [if_pos hxy] at h1
      rw [if_pos hyz] at h2
      exact lexLe_trans xs ys zs h1 h2
    · have hxz : x ≠ z := fun h => hyz (hxy.symm.trans h)
      have hlt : y < z := by simpa [if_neg hyz] using h2
      have hlt' : x < z := by rw [hxy]; exact hlt
      simp [if_neg hxz, hlt']
    · have hxz : x ≠ z := fun h => hxy (h.trans hyz.symm)
      have hlt : x < y := by simpa [if_neg hxy] using h1
      have hlt' : x < z := by rw [← hyz]; exact hlt
      simp [if_neg hxz, hlt']
    · have hlt1 : x < y := by simpa [if_neg hxy] using h1
      have hlt2 : y < z := by simpa [if_neg hyz] using h2
      have hxz : x ≠ z := by
        intro h
        rw [h] at hlt1
        exact absurd hlt2 (asymm hlt1)
      simp [if_neg hxz, lt_trans hlt1 hlt2]

theorem lexLe_total : ∀ xs ys : List Char, lexLe xs ys = true ∨ lexLe ys xs = true
  | [], _ => Or.inl rfl
  | _ :: _, [] => Or.inr rfl
  | x :: xs, y :: ys => by
    simp only [lexLe]
    by_cases hxy : x = y
    · rw [if_pos hxy, if_pos hxy.symm]
      exact lexLe_total xs ys
    · have hyx : y ≠ x := fun h => hxy h.symm
      rw [if_neg hxy, if_neg hyx]
      rcases lt_trichotomy x y with h | h | h
      · exact Or.inl (by simp [h])
      · exact absurd h hxy
      · exact Or.inr (by simp [h])

instance : IsTrans String strLe :=
  ⟨fun a b c h1 h2 => lexLe_trans a.data b.data c.data h1 h2⟩

instance : IsTotal String strLe :=
  ⟨fun a b => lexLe_total a.data b.data⟩

/-- Modelled from the spec: `orientationflips` lives in `jcvi.assembly.base`,
which is not among the inspected sources.  Per the spec (section 4.4) the flip
of an orientation code describes the mirrored relative arrangement, in which
both strands are reversed, so each character of the code is flipped. -/
def strandflip : Strand → Strand
  | Strand.plus => Strand.minus
  | Strand.minus => Strand.plus

/-- Modelled from the spec: the flipped orientation code, see `strandflip`. -/
def orientationflips (o : OriCode) : OriCode := (strandflip o.1, strandflip o.2)

/-- The sign-edge canonicalization of `solve_component`:
`orientation = '+' if orientation[0] == orientation[1] else '-'`. -/
def canonicalRel (o : OriCode) : Strand :=
  if o.1 = o.2 then Strand.plus else Strand.minus

/-- The index pair of an edge after the `if a > b: a, b = b, a` normalization
in `solve_component`. -/
def orderedPair (inodes : String → Nat) (e : LinkEdge) : Nat × Nat :=
  let a := inodes e.a
  let b := inodes e.b
  if b < a then (b, a) else (a, b)

/-- One entry of the `ledges` list of `solve_component`: the ordered index
pair together with the canonicalized orientation relation. -/
def ledgeOf (inodes : String → Nat) (e : LinkEdge) : Nat × Nat × Strand :=
  ((orderedPair inodes e).1, (orderedPair inodes e).2, canonicalRel e.ori)

/-- The strand implied by a resolved sign: `'+' if signs[i] > 0 else '-'`. -/
def signOf (signs : List Int) (i : Nat) : Strand :=
  if 0 < signs.getD i 0 then Strand.plus else Strand.minus

/-- The distance-edge filter of `solve_component`: negate the distance when the
orientation code is the flip of the sign-implied pair, drop the edge when the
code matches neither the pair nor its flip, and keep it unchanged otherwise. -/
def dedgeOf (inodes : String → Nat) (signs : List Int) (e : LinkEdge) :
    Option (Nat × Nat × Int) :=
  let a := (orderedPair inodes e).1
  let b := (orderedPair inodes e).2
  let pair : OriCode := (signOf signs a, signOf signs b)
  if orientationflips e.ori = pair then some (a, b, - e.distance)
  else if e.ori ≠ pair then none
  else some (a, b, e.distance)

/-- One step of sign propagation over a single canonicalized edge: if exactly
one endpoint has a sign, the other receives the sign forced by the edge's
same/opposite relation. -/
def signStep (s : List (Option Int)) (e : Nat × Nat × Strand) : List (Option Int) :=
  match s.getD e.1 none, s.getD e.2.1 none with
  | some x, none => s.set e.2.1 (some (if e.2.2 = Strand.plus then x else - x))
  | none, some y => s.set e.1 (some (if e.2.2 = Strand.plus then y else - y))
  | _, _ => s

/-- Iterate a function a fixed number of times. -/
def iterN (f : α → α) : Nat → α → α
  | 0, a => a
  | n + 1, a => iterN f n (f a)

/-- Modelled from the spec: `determine_signs` lives in
`jcvi.algorithms.matrix`, which is not among the inspected sources.  Per the
spec (section 4.3) the root node receives sign `+1` and signs propagate to the
remaining nodes over the component's edges, each edge enforcing its
same/opposite relation; the propagation is deterministic in the given edge
order.  Evidence that conflicts with an already assigned sign is ignored
(the spec's majority vote differs only on conflicting multigraph evidence). -/
def determine_signs (nodes : List String) (ledges : List (Nat × Nat × Strand)) :
    List Int :=
  let n := nodes.length
  let init : List (Option Int) := (List.range n).map fun i =>
    if i = 0 then some 1 else none
  (iterN (fun s => ledges.foldl signStep s) n init).map fun o => o.getD 1

/-- One step of position propagation over a single signed difference
constraint `position[b] - position[a] = d`. -/
def posStep (s : List (Option Int)) (e : Nat × Nat × Int) : List (Option Int) :=
  match s.getD e.1 none, s.getD e.2.1 none with
  | some pa, none => s.set e.2.1 (some (pa + e.2.2))
  | none, some pb => s.set e.1 (some (pb - e.2.2))
  | _, _ => s

/-- Propagate positions from the anchored first node along the surviving
difference constraints; nodes not reached keep position `0`. -/
def propagatePositions (n : Nat) (dedges : List (Nat × Nat × Int)) : List Int :=
  let init : List (Option Int) := (List.range n).map fun i =>
    if i = 0 then some 0 else none
  (iterN (fun s => dedges.foldl posStep s) n init).map fun o => o.getD 0

/-- Modelled from the spec: `determine_positions` lives in
`jcvi.algorithms.matrix`, which is not among the inspected sources.  Per the
spec (section 4.4) it turns the surviving edges into signed difference
constraints, anchors one reference node at `0`, and fails with
`UnresolvableComponentError` exactly when a multi-node component has no
surviving distance evidence; the exact numerical method is left open by the
spec, and this model solves the constraints by deterministic propagation from
the anchor. -/
def determine_positions (nodes : List String) (dedges : List (Nat × Nat × Int)) :
    Except String (List Int) :=
  if 1 < nodes.length ∧ dedges = [] then Except.error "UnresolvableComponentError"
  else Except.ok (propagatePositions nodes.length dedges)

/-- One row of the layout returned by `solve_component`:
`(node, start, end, orientation)`. -/
abbrev LayoutEntry := String × Int × Int × Strand

/-- The sort key of `solve_component`'s final `bed.sort(key=lambda x: x[1])`:
compare layout entries by their start coordinate. -/
def bedLe (x y : LayoutEntry) : Prop := x.2.1 ≤ y.2.1

instance : DecidableRel bedLe := fun x y => Int.decLe x.2.1 y.2.1

instance : IsTrans LayoutEntry bedLe := ⟨fun _ _ _ h1 h2 => le_trans h1 h2⟩

instance : IsTotal LayoutEntry bedLe := ⟨fun x y => le_total x.2.1 y.2.1⟩

/-- The sorted node list of a component (`nodes = sorted(nodes)`). -/
def componentNodes (nodes0 : List String) : List String :=
  List.insertionSort strLe nodes0

/-- The node-to-index map of a component
(`inodes = dict((x, i) for i, x in enumerate(nodes))`). -/
def componentInodes (nodes0 : List String) : String → Nat :=
  fun x => (componentNodes nodes0).indexOf x

/-- The sign vector of a component: canonicalize every edge and call the sign
solver, exactly as in the first half of `solve_component`. -/
def componentSigns (nodes0 : List String) (edges : List LinkEdge) : List Int :=
  determine_signs (componentNodes nodes0) (edges.map (ledgeOf (componentInodes nodes0)))

/-- The distance edges surviving the orientation-based filter of
`solve_component` (the `dedges` list). -/
def componentDedges (nodes0 : List String) (edges : List LinkEdge) :
    List (Nat × Nat × Int) :=
  edges.filterMap (dedgeOf (componentInodes nodes0) (componentSigns nodes0 edges))

/-- The unsorted `bed` list of `solve_component`: one `(node, start, end,
orientation)` row per node, derived from its sign and position. -/
def bedRows (nodes : List String) (signs : List Int) (positions : List Int)
    (sizes : String → Int) : List LayoutEntry :=
  (nodes.zip (signs.zip positions)).map fun t =>
    let size := sizes t.1
    if t.2.1 < 0 then (t.1, t.2.2 - size, t.2.2, Strand.minus)
    else (t.1, t.2.2, t.2.2 + size, Strand.plus)

/-- The component resolver `solve_component` of `assembly/finish.py`: solve
signs, filter and sign the distance edges, solve positions, build the
per-node layout rows and return them sorted by start coordinate.  The
min-start offset that the Python code computes is subtracted only inside the
log output, so the returned rows carry the raw coordinates. -/
def solve_component (nodes0 : List String) (edges : List LinkEdge)
    (sizes : String → Int) : Except String (List LayoutEntry) :=
  let nodes := componentNodes nodes0
  let signs := componentSigns nodes0 edges
  let dedges := componentDedges nodes0 edges
  match determine_positions nodes dedges with
  | Except.error e => Except.error e
  | Except.ok positions =>
      Except.ok (List.insertionSort bedLe (bedRows nodes signs positions sizes))

/-- Split a character list on a separator, like Python `str.split`. -/
def splitChar (sep : Char) : List Char → List (List Char)
  | [] => [[]]
  | c :: cs =>
    let rest := splitChar sep cs
    if c = sep then [] :: rest
    else match rest with
      | [] => [[c]]
      | r :: rs => (c :: r) :: rs

/-- Join character chunks with a separator, the inverse of `splitChar`. -/
def joinSep (sep : Char) : List (List Char) → List Char
  | [] => []
  | [p] => p
  | p :: ps => p ++ sep :: joinSep sep ps

/-- The bucket-name rule `get_bname` of `scaffold`: with the option set, drop
the trailing `_`-separated token (`sname.rsplit("_", 1)[0]`); otherwise every
contig belongs to the fixed bucket `"chr0"`. -/
def get_bname (pfx : Bool) (sname : String) : String :=
  if pfx then
    let parts := splitChar '_' sname.data
    if parts.length ≤ 1 then sname else String.mk (joinSep '_' parts.dropLast)
  else "chr0"

/-- Sort a list of strings and drop duplicates, like Python `sorted(set(x))`. -/
def sortDedup (l : List String) : List String :=
  (List.insertionSort strLe l).dedup

/-- The contig ids covered by the resolved layouts of one bucket (the
`scaffolded` set of `scaffold`). -/
def coveredOf (scaffolds : List (List LayoutEntry)) : List String :=
  scaffolds.flatMap fun scaf => scaf.map fun e => e.1

/-- The `(node, orientation)` pairs appended to `ctgorder` while walking the
bucket's resolved layouts in order. -/
def scafEntriesOf (scaffolds : List (List LayoutEntry)) : List (String × Strand) :=
  scaffolds.flatMap fun scaf => scaf.map fun e => (e.1, e.2.2.2)

/-- The singleton contigs of a bucket: members not covered by any layout, in
sorted order (`sorted(ctgbuckets[bname] - scaffolded)`). -/
def singletonsOf (ctgs : List String) (scaffolds : List (List LayoutEntry)) :
    List String :=
  sortDedup (ctgs.filter fun c => !(coveredOf scaffolds).contains c)

/-- The phase classifier of `scaffold`: 3 for exactly one singleton and no
scaffold, 2 for exactly one scaffold and no singleton, 1 otherwise. -/
def phaseOf (nscaffolds nsingletons : Nat) : Nat :=
  if nsingletons = 1 ∧ nscaffolds = 0 then 3
  else if nsingletons = 0 ∧ nscaffolds = 1 then 2
  else 1

/-- The per-bucket summary produced by one iteration of the bucket loop in
`scaffold`. -/
structure BucketResult where
  bname : String
  nscaffolds : Nat
  nsingletons : Nat
  phase : Nat
  ctgorder : List (String × Strand)
deriving DecidableEq, Repr

/-- One iteration of the bucket loop of `scaffold`: collect the scaffold
entries, compute the singletons, classify the phase, and append the
singletons to the contig order with `+` orientation. -/
def processBucket (bname : String) (scaffolds : List (List LayoutEntry))
    (ctgs : List String) : BucketResult :=
  let singletons := singletonsOf ctgs scaffolds
  { bname := bname
    nscaffolds := scaffolds.length
    nsingletons := singletons.length
    phase := phaseOf scaffolds.length singletons.length
    ctgorder := scafEntriesOf scaffolds ++ singletons.map fun s => (s, Strand.plus) }

/-- The sorted bucket names arising from the full contig id set
(the keys of `ctgbuckets`, iterated through `sorted(ctgbuckets.items())`). -/
def bucketNamesOf (pfx : Bool) (seqnames : List String) : List String :=
  sortDedup (seqnames.map (get_bname pfx))

/-- The nominal membership of one bucket (the set `ctgbuckets[bname]`). -/
def ctgbucketOf (pfx : Bool) (seqnames : List String) (bname : String) :
    List String :=
  seqnames.filter fun n => get_bname pfx n == bname

/-- The bucket loop of `scaffold`: process every bucket in sorted bucket-name
order, pairing each bucket's resolved layouts with its nominal members. -/
def scaffoldCore (pfx : Bool) (seqnames : List String)
    (sbuckets : String → List (List LayoutEntry)) : List BucketResult :=
  (bucketNamesOf pfx seqnames).map fun bname =>
    processBucket bname (sbuckets bname) (ctgbucketOf pfx seqnames bname)

/-- The bucket a resolved component is placed into:
`name = partialorder[0][0]; bname = get_bname(name)` in `scaffold`. -/
def componentBucket (pfx : Bool) (layout : List LayoutEntry) : String :=
  get_bname pfx ((layout.headD ("", 0, 0, Strand.plus)).1)

/-- One AGP output row: either a gap row `(object, beg, end, part, "U",
gap_length, gap_type, linkage)` or a component row `(object, beg, end, part,
"W", component_id, component_beg, component_end, orientation)`. -/
inductive AGPRow where
  | gapRow (obj : String) (obeg oend : Int) (part : Nat) (ctype : String)
      (gapLen : Int) (gapType : String) (linkage : String) : AGPRow
  | compRow (obj : String) (obeg oend : Int) (part : Nat) (ctype : String)
      (cid : String) (cbeg cend : Int) (ori : Strand) : AGPRow
deriving DecidableEq, Repr

/-- The object start coordinate of an AGP row. -/
def rowBeg : AGPRow → Int
  | AGPRow.gapRow _ b _ _ _ _ _ _ => b
  | AGPRow.compRow _ b _ _ _ _ _ _ _ => b

/-- The object end coordinate of an AGP row. -/
def rowEnd : AGPRow → Int
  | AGPRow.gapRow _ _ e _ _ _ _ _ => e
  | AGPRow.compRow _ _ e _ _ _ _ _ _ => e

/-- The part number of an AGP row. -/
def rowPart : AGPRow → Nat
  | AGPRow.gapRow _ _ _ p _ _ _ _ => p
  | AGPRow.compRow _ _ _ p _ _ _ _ _ => p

/-- Whether an AGP row is a gap row. -/
def isGapB : AGPRow → Bool
  | AGPRow.gapRow .. => true
  | AGPRow.compRow .. => false

/-- The component-specific fields of a component row: component type, contig
id, component begin, component end and orientation. -/
def compData : AGPRow → Option (String × String × Int × Int × Strand)
  | AGPRow.compRow _ _ _ _ ct cid cb ce ori => some (ct, cid, cb, ce, ori)
  | _ => none

/-- The gap-specific fields of a gap row: component type, recorded gap
length, gap type, linkage, and the actual object-coordinate span. -/
def gapData : AGPRow → Option (String × Int × String × String × Int)
  | AGPRow.gapRow _ b e _ ct gl gt lk => some (ct, gl, gt, lk, e - b + 1)
  | _ => none

/-- The loop of `build_agp`: walk the remaining contig order with the current
object cursor and part number, emitting a gap row before every entry except
the first and then the entry's component row. -/
def agpRowsFrom (obj : String) (sizes : String → Int) (gapLen : Int) :
    List (String × Strand) → Bool → Int → Nat → List AGPRow
  | [], _, _, _ => []
  | (cid, ori) :: rest, first, obeg, part =>
    if first then
      let size := sizes cid
      let oend := obeg + size - 1
      AGPRow.compRow obj obeg oend part "W" cid 1 size ori ::
        agpRowsFrom obj sizes gapLen rest false (oend + 1) (part + 1)
    else
      let gend := obeg + gapLen - 1
      let obeg2 := gend + 1
      let part2 := part + 1
      let size := sizes cid
      let oend := obeg2 + size - 1
      AGPRow.gapRow obj obeg gend part "U" gapLen "fragment" "yes" ::
        AGPRow.compRow obj obeg2 oend part2 "W" cid 1 size ori ::
          agpRowsFrom obj sizes gapLen rest false (oend + 1) (part2 + 1)

/-- The AGP emitter `build_agp` of `assembly/finish.py`: start the object
cursor and the part number at 1 and walk the contig order once. -/
def build_agp (obj : String) (ctgorder : List (String × Strand))
    (sizes : String → Int) (gapLen : Int) : List AGPRow :=
  agpRowsFrom obj sizes gapLen ctgorder true 1 1

/-- The total object-coordinate span of a list of AGP rows. -/
def spanSum (rows : List AGPRow) : Int :=
  rows.foldr (fun row acc => (rowEnd row - rowBeg row + 1) + acc) 0

/-- The database assertion at the top of `run_megablast` in
`apps/command.py`: `assert db, "Need to specify database fasta file."`.
A Python argument that is `None` or the empty string is falsy, so exactly
those two inputs trip the assertion; `none` models a call without the
argument. -/
def run_megablast (db : Option String) : Except String Unit :=
  if db.getD "" = "" then Except.error "Need to specify database fasta file."
  else Except.ok ()

/-- Whether a layout's start coordinates are normalized so the minimum start
is 0: no start is negative, and some entry starts at 0. -/
def minStartZero (bed : List LayoutEntry) : Prop :=
  (∀ e ∈ bed, 0 ≤ e.2.1) ∧ (bed ≠ [] → ∃ e ∈ bed, e.2.1 = 0)

instance (bed : List LayoutEntry) : Decidable (minStartZero bed) :=
  instDecidableAnd

/-- Whether the entries of a layout are pairwise non-overlapping: for any two
entries, one ends at or before the other starts. -/
def pairwiseDisjoint (bed : List LayoutEntry) : Prop :=
  List.Pairwise (fun x y => x.2.2.1 ≤ y.2.1 ∨ y.2.2.1 ≤ x.2.1) bed

instance (bed : List LayoutEntry) : Decidable (pairwiseDisjoint bed) :=
  List.instDecidablePairwise bed

/-- Concrete node-index map used to exercise the distance-edge filter. -/
def wInodes : String → Nat := fun s => if s = "a" then 0 else 1

/-- Concrete sign vector (both contigs forward). -/
def wSigns : List Int := [1, 1]

/-- Concrete edge whose orientation code is the flip of the sign pair. -/
def wEdgeNeg : LinkEdge := ⟨"a", "b", (Strand.minus, Strand.minus), 50⟩

/-- Concrete edge whose orientation code matches neither the sign pair nor
its flip. -/
def wEdgeDrop : LinkEdge := ⟨"a", "b", (Strand.plus, Strand.minus), 50⟩

/-- Concrete edge whose orientation code matches the sign pair directly. -/
def wEdgeKeep : LinkEdge := ⟨"a", "b", (Strand.plus, Strand.plus), 50⟩

/-- Concrete two-node component: one `+-` edge of distance 50. -/
def cexNodes : List String := ["a", "b"]

/-- Concrete edge list of the two-node component. -/
def cexEdges : List LinkEdge := [⟨"a", "b", (Strand.plus, Strand.minus), 50⟩]

/-- Concrete contig sizes for the two-node component. -/
def cexSizes : String → Int := fun _ => 300

/-- The layout `solve_component` returns for the concrete two-node component:
note the negative start coordinate and the overlapping spans. -/
def cexBed : List LayoutEntry :=
  [("b", -250, 50, Strand.minus), ("a", 0, 300, Strand.plus)]

/-- Concrete two-contig order for exercising `build_agp`. -/
def agpOrder : List (String × Strand) := [("a", Strand.plus), ("b", Strand.plus)]

/-- Concrete contig sizes for `build_agp` (300 and 200 bases). -/
def agpSizes : String → Int := fun s => if s = "a" then 300 else 200

/-- Concrete contig id set for exercising the bucket loop. -/
def wSeqnames : List String := ["x_1", "x_2", "y_1"]

/-- Concrete resolved layouts per bucket: bucket `x` holds one one-contig
scaffold covering `x_1`. -/
def wSbuckets : String → List (List LayoutEntry) :=
  fun b => if b = "x" then [[("x_1", 0, 300, Strand.plus)]] else []

theorem orientationflips_ne (o : OriCode) : orientationflips o ≠ o := by
  rcases o with ⟨a, b⟩
  cases a <;> simp [orientationflips, strandflip]

theorem signStep_length (s : List (Option Int)) (e : Nat × Nat × Strand) :
    (signStep s e).length = s.length := by
  unfold signStep
  split <;> simp [List.length_set]

theorem posStep_length (s : List (Option Int)) (e : Nat × Nat × Int) :
    (posStep s e).length = s.length := by
  unfold posStep
  split <;> simp [List.length_set]

theorem foldl_signStep_length (l : List (Nat × Nat × Strand)) :
    ∀ s : List (Option Int), (l.foldl signStep s).length = s.length := by
  induction l with
  | nil => intro s; rfl
  | cons e l ih => intro s; rw [List.foldl_cons, ih, signStep_length]

theorem foldl_posStep_length (l : List (Nat × Nat × Int)) :
    ∀ s : List (Option Int), (l.foldl posStep s).length = s.length := by
  induction l with
  | nil => intro s; rfl
  | cons e l ih => intro s; rw [List.foldl_cons, ih, posStep_length]

theorem iterN_length {f : List (Option Int) → List (Option Int)}
    (hf : ∀ s, (f s).length = s.length) :
    ∀ (n : Nat) (s : List (Option Int)), (iterN f n s).length = s.length := by
  intro n
  induction n with
  | zero => intro s; rfl
  | succ n ih => intro s; rw [iterN, ih, hf]

theorem determine_signs_length (nodes : List String)
    (ledges : List (Nat × Nat × Strand)) :
    (determine_signs nodes ledges).length = nodes.length := by
  unfold determine_signs
  rw [List.length_map, iterN_length (fun s => foldl_signStep_length ledges s),
    List.length_map, List.length_range]

theorem propagatePositions_length (n : Nat) (dedges : List (Nat × Nat × Int)) :
    (propagatePositions n dedges).length = n := by
  unfold propagatePositions
  rw [List.length_map, iterN_length (fun s => foldl_posStep_length dedges s),
    List.length_map, List.length_range]

theorem bedRows_length (nodes : List String) (signs positions : List Int)
    (sizes : String → Int) (hs : signs.length = nodes.length)
    (hp : positions.length = nodes.length) :
    (bedRows nodes signs positions sizes).length = nodes.length := by
  unfold bedRows
  rw [List.length_map, List.length_zip, List.length_zip, hs, hp]
  simp

theorem solve_component_eq (nodes0 : List String) (edges : List LinkEdge)
    (sizes : String → Int) :
    solve_component nodes0 edges sizes =
      if 1 < (componentNodes nodes0).length ∧ componentDedges nodes0 edges = [] then
        Except.error "UnresolvableComponentError"
      else
        Except.ok (List.insertionSort bedLe (bedRows (componentNodes nodes0)
          (componentSigns nodes0 edges)
          (propagatePositions (componentNodes nodes0).length
            (componentDedges nodes0 edges)) sizes)) := by
  unfold solve_component determine_positions
  by_cases h : 1 < (componentNodes nodes0).length ∧ componentDedges nodes0 edges = [] <;>
    simp [h]

theorem sortDedup_sorted (l : List String) : List.Sorted strLe (sortDedup l) :=
  List.Pairwise.sublist (List.dedup_sublist _) (List.sorted_insertionSort strLe l)

theorem mem_sortDedup {a : String} {l : List String} : a ∈ sortDedup l ↔ a ∈ l := by
  unfold sortDedup
  rw [List.mem_dedup, List.mem_insertionSort]

theorem spanSum_cons (r : AGPRow) (rows : List AGPRow) :
    spanSum (r :: rows) = (rowEnd r - rowBeg r + 1) + spanSum rows := rfl

theorem agpRowsFrom_cons (obj : String) (sizes : String → Int) (cid : String)
    (ori : Strand) (rest : List (String × Strand)) (obeg : Int) (part : Nat) :
    agpRowsFrom obj sizes 100 ((cid, ori) :: rest) false obeg part =
      AGPRow.gapRow obj obeg (obeg + 100 - 1) part "U" 100 "fragment" "yes" ::
      AGPRow.compRow obj (obeg + 100 - 1 + 1) (obeg + 100 - 1 + 1 + sizes cid - 1)
          (part + 1) "W" cid 1 (sizes cid) ori ::
      agpRowsFrom obj sizes 100 rest false (obeg + 100 - 1 + 1 + sizes cid - 1 + 1)
          (part + 1 + 1) := rfl

theorem agpRowsFrom_spec (obj : String) (sizes : String → Int) :
    ∀ (l : List (String × Strand)) (obeg : Int) (part : Nat),
      (agpRowsFrom obj sizes 100 l false obeg part).length = 2 * l.length
      ∧ (agpRowsFrom obj sizes 100 l false obeg part).map isGapB =
          (List.replicate l.length [true, false]).flatten
      ∧ (agpRowsFrom obj sizes 100 l false obeg part).filterMap compData =
          l.map (fun p => ("W", p.1, (1 : Int), sizes p.1, p.2))
      ∧ (agpRowsFrom obj sizes 100 l false obeg part).filterMap gapData =
          List.replicate l.length ("U", (100 : Int), "fragment", "yes", (100 : Int))
      ∧ (l ≠ [] → (agpRowsFrom obj sizes 100 l false obeg part).head?.map rowBeg = some obeg)
      ∧ List.Chain' (fun x y => rowBeg y = rowEnd x + 1)
          (agpRowsFrom obj sizes 100 l false obeg part)
      ∧ (agpRowsFrom obj sizes 100 l false obeg part).map rowPart =
          List.range' part (agpRowsFrom obj sizes 100 l false obeg part).length 1
      ∧ spanSum (agpRowsFrom obj sizes 100 l false obeg part) =
          100 * l.length + (l.map (fun p => sizes p.1)).sum := by
  intro l
  induction l with
  | nil =>
    intro obeg part
    refine ⟨rfl, rfl, rfl, rfl, fun h => absurd rfl h, List.chain'_nil, rfl,
      by simp [spanSum, agpRowsFrom]⟩
  | cons hd rest ih =>
    intro obeg part
    obtain ⟨cid, ori⟩ := hd
    rw [agpRowsFrom_cons]
    obtain ⟨ihlen, ihgap, ihcomp, ihgapd, ihhead, ihchain, ihparts, ihspan⟩ :=
      ih (obeg + 100 - 1 + 1 + sizes cid - 1 + 1) (part + 1 + 1)
    refine ⟨?_, ?_, ?_, ?_, ?_, ?_, ?_, ?_⟩
    · simp only [List.length_cons, ihlen]
      ring
    · simp only [List.map_cons, isGapB, ihgap, List.length_cons, List.replicate_succ,
        List.flatten_cons, List.cons_append, List.nil_append]
    · simp only [List.filterMap_cons, compData, ihcomp, List.map_cons]
    · have harith : obeg + 100 - 1 - obeg + 1 = (100 : Int) := by ring
      simp only [List.filterMap_cons, gapData, ihgapd, List.length_cons,
        List.replicate_succ, harith]
    · intro _
      rfl
    · rw [List.chain'_cons]
      refine ⟨rfl, ?_⟩
      rw [List.chain'_cons']
      refine ⟨?_, ihchain⟩
      intro y hy
      cases hrec : (agpRowsFrom obj sizes 100 rest false
          (obeg + 100 - 1 + 1 + sizes cid - 1 + 1) (part + 1 + 1)).head? with
      | none => rw [hrec] at hy; cases hy
      | some z =>
        rw [hrec] at hy
        have hyz : z = y := by simpa using hy
        have hrestne : rest ≠ [] := by
          intro h
          rw [h] at hrec
          cases hrec
        have := ihhead hrestne
        rw [hrec] at this
        have hz : rowBeg z = obeg + 100 - 1 + 1 + sizes cid - 1 + 1 := by
          simpa using this
        rw [← hyz, hz]
        rfl
    · simp only [List.map_cons, rowPart, List.length_cons]
      rw [List.range'_succ, List.range'_succ]
      simp only [List.cons.injEq, true_and]
      exact ihparts
    · rw [spanSum_cons, spanSum_cons, ihspan]
      simp only [rowEnd, rowBeg, List.map_cons, List.sum_cons, List.length_cons]
      push_cast
      ring

/-- C1: in `solve_component`, for every edge of a component with resolved
signs, writing `pair` for the sign-implied orientation pair of the edge's
ordered endpoints: if the edge's orientation code equals the flipped version
of `pair` the edge enters the difference-constraint set with its distance
negated; if the code equals neither `pair` nor its flipped version the edge
is excluded; otherwise the edge is kept with its distance unchanged. -/
theorem dedge_filter_cases (inodes : String → Nat) (signs : List Int) (e : LinkEdge) :
    (orientationflips e.ori =
        (signOf signs (orderedPair inodes e).1, signOf signs (orderedPair inodes e).2) →
      dedgeOf inodes signs e =
        some ((orderedPair inodes e).1, (orderedPair inodes e).2, - e.distance))
    ∧ (orientationflips e.ori ≠
          (signOf signs (orderedPair inodes e).1, signOf signs (orderedPair inodes e).2) →
       e.ori ≠ (signOf signs (orderedPair inodes e).1, signOf signs (orderedPair inodes e).2) →
      dedgeOf inodes signs e = none)
    ∧ (e.ori =
        (signOf signs (orderedPair inodes e).1, signOf signs (orderedPair inodes e).2) →
      dedgeOf inodes signs e =
        some ((orderedPair inodes e).1, (orderedPair inodes e).2, e.distance)) := by
  refine ⟨?_, ?_, ?_⟩
  · intro h
    simp only [dedgeOf, if_pos h]
  · intro h1 h2
    simp only [dedgeOf, if_neg h1, if_pos h2]
  · intro h
    have h1 : orientationflips e.ori ≠
        (signOf signs (orderedPair inodes e).1, signOf signs (orderedPair inodes e).2) := by
      rw [← h]
      exact orientationflips_ne e.ori
    simp only [dedgeOf]
    rw [if_neg h1, if_neg (not_not_intro h)]

/-- Witness for C1: with both signs positive the pair is `++`; a `--` edge
(the flip of the pair) is negated, a `+-` edge (neither the pair nor its
flip) is dropped, and a `++` edge (the pair itself) is kept unchanged. -/
theorem dedge_filter_cases_witness :
    dedgeOf wInodes wSigns wEdgeNeg = some (0, 1, -50)
    ∧ dedgeOf wInodes wSigns wEdgeDrop = none
    ∧ dedgeOf wInodes wSigns wEdgeKeep = some (0, 1, 50) :=
  ⟨(dedge_filter_cases wInodes wSigns wEdgeNeg).1 (by decide),
   (dedge_filter_cases wInodes wSigns wEdgeDrop).2.1 (by decide) (by decide),
   (dedge_filter_cases wInodes wSigns wEdgeKeep).2.2 (by decide)⟩

/-- C8: the orientation canonicalization used for sign solving maps a code to
the `same sign required` relation exactly when its two characters agree, and
to the `opposite sign required` relation exactly when they differ. -/
theorem ledge_canonicalization (inodes : String → Nat) (e : LinkEdge) :
    ((ledgeOf inodes e).2.2 = Strand.plus ↔ e.ori.1 = e.ori.2)
    ∧ ((ledgeOf inodes e).2.2 = Strand.minus ↔ e.ori.1 ≠ e.ori.2) := by
  rcases e with ⟨a, b, ⟨s1, s2⟩, d⟩
  constructor <;> cases s1 <;> cases s2 <;>
    simp [ledgeOf, canonicalRel]

/-- C6: the phase classifier returns 3 exactly for one singleton and no
scaffold, 2 exactly for one scaffold and no singleton, and 1 in every other
combination of counts. -/
theorem phase_classification (nscaf nsing : Nat) :
    (phaseOf nscaf nsing = 3 ↔ nsing = 1 ∧ nscaf = 0)
    ∧ (phaseOf nscaf nsing = 2 ↔ nsing = 0 ∧ nscaf = 1)
    ∧ (phaseOf nscaf nsing = 1 ↔ ¬(nsing = 1 ∧ nscaf = 0) ∧ ¬(nsing = 0 ∧ nscaf = 1)) := by
  unfold phaseOf
  split_ifs with h1 h2 <;> refine ⟨?_, ?_, ?_⟩ <;> simp_all

/-- C10: the database check of `run_megablast` fails with the assertion
message exactly when the database argument is missing or empty, and succeeds
on every non-empty database string. -/
theorem run_megablast_db_check (db : Option String) :
    (run_megablast db = Except.error "Need to specify database fasta file." ↔
      db = none ∨ db = some "")
    ∧ (run_megablast db = Except.ok () ↔ ¬(db = none ∨ db = some "")) := by
  cases db with
  | none => simp [run_megablast]
  | some s =>
    by_cases h : s = "" <;> simp [run_megablast, h]

/-- C2: `solve_component` fails with `UnresolvableComponentError` exactly when
a component with more than one node has no distance edges surviving the
orientation-based filter; that is its only failure, and in every other case
it returns one layout row per node of the component. -/
theorem solve_component_failure (nodes0 : List String) (edges : List LinkEdge)
    (sizes : String → Int) :
    (solve_component nodes0 edges sizes = Except.error "UnresolvableComponentError" ↔
      1 < nodes0.length ∧ componentDedges nodes0 edges = [])
    ∧ (∀ msg, solve_component nodes0 edges sizes = Except.error msg →
        msg = "UnresolvableComponentError")
    ∧ (∀ bed, solve_component nodes0 edges sizes = Except.ok bed →
        bed.length = nodes0.length) := by
  have hlen : (componentNodes nodes0).length = nodes0.length :=
    List.length_insertionSort strLe nodes0
  rw [solve_component_eq]
  by_cases h : 1 < (componentNodes nodes0).length ∧ componentDedges nodes0 edges = []
  · rw [if_pos h]
    refine ⟨⟨fun _ => ⟨by rw [← hlen]; exact h.1, h.2⟩, fun _ => rfl⟩, ?_, ?_⟩
    · intro msg hmsg
      exact (Except.error.inj hmsg).symm
    · intro bed hbed
      cases hbed
  · rw [if_neg h]
    refine ⟨?_, ?_, ?_⟩
    · constructor
      · intro hcontra
        cases hcontra
      · intro h'
        exact absurd (And.intro (by rw [hlen]; exact h'.1) h'.2) h
    · intro msg hmsg
      cases hmsg
    · intro bed hbed
      have hbed' : bed = List.insertionSort bedLe (bedRows (componentNodes nodes0)
          (componentSigns nodes0 edges)
          (propagatePositions (componentNodes nodes0).length
            (componentDedges nodes0 edges)) sizes) :=
        (Except.ok.inj hbed).symm
      rw [hbed', List.length_insertionSort,
        bedRows_length _ _ _ _ ?_ ?_, hlen]
      · unfold componentSigns
        exact determine_signs_length _ _
      · exact propagatePositions_length _ _

/-- Witness for C2: the two-node component with one `+-` edge keeps a
distance edge, so resolution succeeds and yields one row per node; its edge
list and node count also instantiate the failure criterion negatively. -/
theorem solve_component_failure_witness :
    cexBed.length = cexNodes.length
    ∧ ¬(1 < cexNodes.length ∧ componentDedges cexNodes cexEdges = []) :=
  ⟨(solve_component_failure cexNodes cexEdges cexSizes).2.2 cexBed (by rfl),
   fun h => by
     have herr := (solve_component_failure cexNodes cexEdges cexSizes).1.mpr h
     rw [show solve_component cexNodes cexEdges cexSizes = Except.ok cexBed from rfl] at herr
     exact Except.noConfusion herr⟩

/-- Counterexample for C3: on a concrete two-node component the layout
returned by `solve_component` has minimum start -250 (the min-start offset is
subtracted only in the log output, not in the returned rows) and its two
rows overlap on the interval 0..50. -/
theorem layout_not_normalized_counterexample :
    solve_component cexNodes cexEdges cexSizes = Except.ok cexBed
    ∧ ¬ minStartZero cexBed
    ∧ ¬ pairwiseDisjoint cexBed :=
  ⟨rfl, by decide, by decide⟩

/-- C3 (amended): the layout returned by `solve_component` is a sequence of
`(contigId, start, end, orientation)` rows sorted by ascending start; the
normalization to minimum start 0 applies only to the logged copy, and the
returned rows need not be pairwise non-overlapping. -/
theorem layout_sorted_by_start (nodes0 : List String) (edges : List LinkEdge)
    (sizes : String → Int) (bed : List LayoutEntry)
    (h : solve_component nodes0 edges sizes = Except.ok bed) :
    List.Sorted bedLe bed := by
  rw [solve_component_eq] at h
  by_cases hc : 1 < (componentNodes nodes0).length ∧ componentDedges nodes0 edges = []
  · rw [if_pos hc] at h
    cases h
  · rw [if_neg hc] at h
    have hbed := (Except.ok.inj h).symm
    rw [hbed]
    exact List.sorted_insertionSort bedLe _

/-- Witness for C3: the layout returned for the concrete two-node component
is sorted by ascending start. -/
theorem layout_sorted_by_start_witness : List.Sorted bedLe cexBed :=
  layout_sorted_by_start cexNodes cexEdges cexSizes cexBed rfl

/-- C9: the bucket of a resolved component is derived from the contig id of
the first row of the layout returned by `solve_component`, and that first row
has the smallest start coordinate of the returned ordering. -/
theorem component_bucket_from_head (pfx : Bool) (nodes0 : List String)
    (edges : List LinkEdge) (sizes : String → Int) (bed : List LayoutEntry)
    (t : LayoutEntry) (rest : List LayoutEntry)
    (h : solve_component nodes0 edges sizes = Except.ok bed)
    (hbed : bed = t :: rest) :
    componentBucket pfx bed = get_bname pfx t.1 ∧ ∀ e ∈ bed, t.2.1 ≤ e.2.1 := by
  subst hbed
  refine ⟨rfl, ?_⟩
  have hsorted := layout_sorted_by_start nodes0 edges sizes (t :: rest) h
  intro e he
  rcases List.mem_cons.mp he with rfl | hmem
  · exact le_refl _
  · exact (List.pairwise_cons.mp hsorted).1 e hmem

/-- Witness for C9: on the concrete two-node component the bucket comes from
contig `b`, the first and leftmost row of the returned layout. -/
theorem component_bucket_from_head_witness :
    componentBucket false cexBed = get_bname false "b"
    ∧ ∀ e ∈ cexBed, (-250 : Int) ≤ e.2.1 :=
  component_bucket_from_head false cexNodes cexEdges cexSizes cexBed
    ("b", -250, 50, Strand.minus) [("a", 0, 300, Strand.plus)] rfl rfl

/-- C4: for every non-empty contig order, `build_agp` emits a gap row of
exactly 100 bases with component type `U`, gap type `fragment`, linkage `yes`
before every entry except the first; every component row has type `W`, spans
component coordinates 1..size and carries the entry's orientation, with the
component rows matching the contig order; the first row starts at object
coordinate 1, each row starts one past the previous row's end, and the part
numbers are exactly 1, 2, ... in row order. -/
theorem build_agp_rows (obj : String) (sizes : String → Int)
    (ctgorder : List (String × Strand)) (h : ctgorder ≠ []) :
    (build_agp obj ctgorder sizes 100).map isGapB =
        false :: (List.replicate (ctgorder.length - 1) [true, false]).flatten
    ∧ (build_agp obj ctgorder sizes 100).filterMap compData =
        ctgorder.map (fun p => ("W", p.1, (1 : Int), sizes p.1, p.2))
    ∧ (build_agp obj ctgorder sizes 100).filterMap gapData =
        List.replicate (ctgorder.length - 1)
          ("U", (100 : Int), "fragment", "yes", (100 : Int))
    ∧ (build_agp obj ctgorder sizes 100).head?.map rowBeg = some 1
    ∧ List.Chain' (fun x y => rowBeg y = rowEnd x + 1) (build_agp obj ctgorder sizes 100)
    ∧ (build_agp obj ctgorder sizes 100).map rowPart =
        List.range' 1 (build_agp obj ctgorder sizes 100).length 1 := by
  match ctgorder, h with
  | (cid, ori) :: rest, _ =>
    have hunf : build_agp obj ((cid, ori) :: rest) sizes 100 =
        AGPRow.compRow obj 1 (1 + sizes cid - 1) 1 "W" cid 1 (sizes cid) ori ::
          agpRowsFrom obj sizes 100 rest false (1 + sizes cid - 1 + 1) (1 + 1) := rfl
    obtain ⟨ihlen, ihgap, ihcomp, ihgapd, ihhead, ihchain, ihparts, _⟩ :=
      agpRowsFrom_spec obj sizes rest (1 + sizes cid - 1 + 1) (1 + 1)
    rw [hunf]
    refine ⟨?_, ?_, ?_, ?_, ?_, ?_⟩
    · simp only [List.map_cons, isGapB, ihgap, List.length_cons, Nat.add_sub_cancel]
    · simp only [List.filterMap_cons, compData, ihcomp, List.map_cons]
    · simp only [List.filterMap_cons, gapData, ihgapd, List.length_cons,
        Nat.add_sub_cancel]
    · rfl
    · rw [List.chain'_cons']
      refine ⟨?_, ihchain⟩
      intro y hy
      cases hrec : (agpRowsFrom obj sizes 100 rest false
          (1 + sizes cid - 1 + 1) (1 + 1)).head? with
      | none => rw [hrec] at hy; cases hy
      | some z =>
        rw [hrec] at hy
        have hyz : z = y := by simpa using hy
        have hrestne : rest ≠ [] := by
          intro hr
          rw [hr] at hrec
          cases hrec
        have := ihhead hrestne
        rw [hrec] at this
        have hz : rowBeg z = 1 + sizes cid - 1 + 1 := by simpa using this
        rw [← hyz, hz]
        rfl
    · simp only [List.map_cons, rowPart, List.length_cons]
      rw [List.range'_succ]
      simp only [List.cons.injEq, true_and]
      exact ihparts

/-- Witness for C4: the row properties hold on the concrete two-contig
order. -/
theorem build_agp_rows_witness :
    (build_agp "chr0" agpOrder agpSizes 100).map isGapB =
        false :: (List.replicate (agpOrder.length - 1) [true, false]).flatten
    ∧ (build_agp "chr0" agpOrder agpSizes 100).filterMap compData =
        agpOrder.map (fun p => ("W", p.1, (1 : Int), agpSizes p.1, p.2))
    ∧ (build_agp "chr0" agpOrder agpSizes 100).filterMap gapData =
        List.replicate (agpOrder.length - 1)
          ("U", (100 : Int), "fragment", "yes", (100 : Int))
    ∧ (build_agp "chr0" agpOrder agpSizes 100).head?.map rowBeg = some 1
    ∧ List.Chain' (fun x y => rowBeg y = rowEnd x + 1) (build_agp "chr0" agpOrder agpSizes 100)
    ∧ (build_agp "chr0" agpOrder agpSizes 100).map rowPart =
        List.range' 1 (build_agp "chr0" agpOrder agpSizes 100).length 1 :=
  build_agp_rows "chr0" agpSizes agpOrder (by decide)

/-- Counterexample for C5: on a bucket of two contigs of sizes 300 and 200
the object spans of the AGP rows total 600, but the claimed formula
`numComponents * (100 * (numComponents - 1)) + total contig length`
evaluates to 700. -/
theorem agp_span_formula_counterexample :
    spanSum (build_agp "chr0" agpOrder agpSizes 100) ≠
      (agpOrder.length : Int) * (100 * ((agpOrder.length : Int) - 1)) +
        (agpOrder.map (fun p => agpSizes p.1)).sum := by
  decide

/-- C5 (amended): for every bucket with a non-empty contig order, the sum of
the object-coordinate spans of its AGP rows equals the gap contribution plus
the sum of the contigs' lengths, where the gap contribution is
`100 * (numComponents - 1)`. -/
theorem agp_span_sum (obj : String) (sizes : String → Int)
    (ctgorder : List (String × Strand)) (h : ctgorder ≠ []) :
    spanSum (build_agp obj ctgorder sizes 100) =
      100 * ((ctgorder.length : Int) - 1) + (ctgorder.map (fun p => sizes p.1)).sum := by
  match ctgorder, h with
  | (cid, ori) :: rest, _ =>
    have hunf : build_agp obj ((cid, ori) :: rest) sizes 100 =
        AGPRow.compRow obj 1 (1 + sizes cid - 1) 1 "W" cid 1 (sizes cid) ori ::
          agpRowsFrom obj sizes 100 rest false (1 + sizes cid - 1 + 1) (1 + 1) := rfl
    obtain ⟨_, _, _, _, _, _, _, ihspan⟩ :=
      agpRowsFrom_spec obj sizes rest (1 + sizes cid - 1 + 1) (1 + 1)
    rw [hunf, spanSum_cons, ihspan]
    simp only [rowEnd, rowBeg, List.map_cons, List.sum_cons, List.length_cons]
    push_cast
    ring

/-- Witness for C5 (amended): on the concrete two-contig order the spans sum
to `100 * 1 + 500 = 600`. -/
theorem agp_span_sum_witness :
    spanSum (build_agp "chr0" agpOrder agpSizes 100) =
      100 * ((agpOrder.length : Int) - 1) + (agpOrder.map (fun p => agpSizes p.1)).sum :=
  agp_span_sum "chr0" agpSizes agpOrder (by decide)

/-- C7: every contig id of the size mapping belongs to exactly one bucket;
the bucket loop visits buckets in sorted bucket-name order; and within each
bucket the contig order is the scaffold entries followed by exactly the
uncovered member contigs as `+`-oriented singletons in sorted id order. -/
theorem bucket_assembly (pfx : Bool) (seqnames : List String)
    (sbuckets : String → List (List LayoutEntry)) :
    (∀ name ∈ seqnames, ∃! b, b ∈ bucketNamesOf pfx seqnames ∧
        name ∈ ctgbucketOf pfx seqnames b)
    ∧ List.Sorted strLe ((scaffoldCore pfx seqnames sbuckets).map fun r => r.bname)
    ∧ ∀ r ∈ scaffoldCore pfx seqnames sbuckets,
        r.ctgorder = scafEntriesOf (sbuckets r.bname) ++
          (singletonsOf (ctgbucketOf pfx seqnames r.bname) (sbuckets r.bname)).map
            (fun s => (s, Strand.plus))
        ∧ List.Sorted strLe
            (singletonsOf (ctgbucketOf pfx seqnames r.bname) (sbuckets r.bname))
        ∧ ∀ c, c ∈ singletonsOf (ctgbucketOf pfx seqnames r.bname) (sbuckets r.bname) ↔
            (c ∈ ctgbucketOf pfx seqnames r.bname ∧ c ∉ coveredOf (sbuckets r.bname)) := by
  refine ⟨?_, ?_, ?_⟩
  · intro name hname
    refine ⟨get_bname pfx name, ⟨?_, ?_⟩, ?_⟩
    · exact mem_sortDedup.mpr (List.mem_map.mpr ⟨name, hname, rfl⟩)
    · exact List.mem_filter.mpr ⟨hname, by simp⟩
    · rintro y ⟨_, hy2⟩
      have hmem := List.mem_filter.mp hy2
      exact (eq_of_beq hmem.2).symm
  · have hmap : (scaffoldCore pfx seqnames sbuckets).map (fun r => r.bname) =
        bucketNamesOf pfx seqnames := by
      unfold scaffoldCore
      rw [List.map_map]
      have h1 : List.map ((fun r : BucketResult => r.bname) ∘ fun bname =>
          processBucket bname (sbuckets bname) (ctgbucketOf pfx seqnames bname))
          (bucketNamesOf pfx seqnames) =
          List.map (fun x => x) (bucketNamesOf pfx seqnames) :=
        List.map_congr_left fun x _ => rfl
      rw [h1, List.map_id']
    rw [hmap]
    exact sortDedup_sorted _
  · intro r hr
    obtain ⟨b, _, rfl⟩ := List.mem_map.mp hr
    refine ⟨rfl, sortDedup_sorted _, ?_⟩
    intro c
    unfold singletonsOf
    rw [mem_sortDedup, List.mem_filter]
    simp

/-- Witness for C7: on the concrete contig set, `x_1` belongs to exactly one
bucket, and the singleton characterization holds for bucket `x`. -/
theorem bucket_assembly_witness :
    (∃! b, b ∈ bucketNamesOf true wSeqnames ∧ "x_1" ∈ ctgbucketOf true wSeqnames b)
    ∧ (∀ c, c ∈ singletonsOf (ctgbucketOf true wSeqnames "x") (wSbuckets "x") ↔
        (c ∈ ctgbucketOf true wSeqnames "x" ∧ c ∉ coveredOf (wSbuckets "x"))) :=
  ⟨(bucket_assembly true wSeqnames wSbuckets).1 "x_1" (by decide),
   ((bucket_assembly true wSeqnames wSbuckets).2.2
      (processBucket "x" (wSbuckets "x") (ctgbucketOf true wSeqnames "x"))
      (by decide)).2.2⟩
